import Mathlib

/-!
A shallow embedding of the core data structures and handlers of the `jay`
Wayland compositor, together with proofs settling the specification claims.

Embedded source files:
* `src/tasks/connector.rs` — connector lifecycle handler (hotplug, migration).
* `src/utils/linkedlist.rs` — intrusive reference-counted doubly linked list.
* `src/ifs/xdg_wm_base.rs` — the `xdg_wm_base` protocol object.
* `src/ifs/zwp_primary_selection_device_v1.rs` — primary-selection device.
* `src/tree/workspace.rs` — workspace scene node.

Machine integers (ids) are modelled as `Nat`; pixel coordinates as `Int` with
Rust's truncating division written `Int.tdiv`. Collaborator calls that the
claims observe only at the call boundary (`move_ws_to_output`,
`seat.set_position`) are recorded as trace actions rather than interpreted.
-/

namespace Jay

/-! ## Connector lifecycle (`src/tasks/connector.rs`) -/

/-- A rectangle as in `rect.rs`: corner coordinates. -/
structure Rect where
  x1 : Int
  y1 : Int
  x2 : Int
  y2 : Int
deriving DecidableEq, Repr

/-- The fields of `WorkspaceNode` that the connector handler reads or writes.
`desiredOutput` is the workspace's desired `OutputId` (output identities are
modelled as `Nat`). -/
structure Workspace where
  wid : Nat
  is_dummy : Bool
  desired_output : Nat
  visible_on_desired_output : Bool
  visible : Bool
deriving DecidableEq, Repr

/-- The fields of an `OutputNode` the connector handler reads: its node id,
its global's position rectangle and the workspaces it hosts. -/
structure OutputSt where
  oid : Nat
  pos : Rect
  workspaces : List Workspace
deriving DecidableEq, Repr

/-- The fields of a seat the connector handler reads: its id and the node id
of the output returned by `seat.get_output()`. -/
structure Seat where
  sid : Nat
  output_node : Nat
deriving DecidableEq, Repr

/-- Observable collaborator calls made by the connector handler:
`move_ws_to_output(&ws, &target, WsMoveConfig { make_visible_if_empty, source_is_destroyed })`
and `seat.set_position(x, y)`. -/
inductive Action where
  | moveWs (wsId : Nat) (targetOutput : Nat) (makeVisibleIfEmpty : Bool)
      (sourceIsDestroyed : Bool)
  | setSeatPos (seatId : Nat) (x y : Int)
deriving DecidableEq, Repr

/-- Center abscissa `(pos.x1() + pos.x2()) / 2` with Rust's truncating `i32`
division. -/
def centerX (r : Rect) : Int := Int.tdiv (r.x1 + r.x2) 2

/-- Center ordinate `(pos.y1() + pos.y2()) / 2`. -/
def centerY (r : Rect) : Int := Int.tdiv (r.y1 + r.y2) 2

/-- The drain loop of `handle_desktop_connected` (lines 215–224):
`while let Some(ws) = ws_to_move.pop_front()` computes
`make_visible = (ws.visible_on_desired_output.get() && ws.desired_output.get() == output_id) || ws_to_move.is_empty()`
and calls `move_ws_to_output(&ws, &on, WsMoveConfig { make_visible_if_empty: make_visible, source_is_destroyed: false })`. -/
def moveQueue (outputId onId : Nat) : List Workspace → List Action
  | [] => []
  | ws :: rest =>
      let mv := (ws.visible_on_desired_output && ws.desired_output == outputId)
        || rest.isEmpty
      Action.moveWs ws.wid onId mv false :: moveQueue outputId onId rest

/-- The migration part of `handle_desktop_connected` (lines 185–224), given
the outputs already registered in the display root (the handler has just added
the new output `on`, so `root.outputs.len() == 1` iff `existing = []`), the
dummy output's workspaces, the seats, and the new output's node id, position
and `OutputId`. Produces the trace of collaborator calls in program order:
seat repositioning (first-output case only) followed by the queue drain. -/
def connectActions (existing : List OutputSt) (dummyWss : List Workspace)
    (seats : List Seat) (onId : Nat) (onPos : Rect) (outputId : Nat) :
    List Action :=
  let firstOutput := existing.length + 1 == 1
  let seatActs :=
    if firstOutput then
      seats.map (fun s => Action.setSeatPos s.sid (centerX onPos) (centerY onPos))
    else []
  let wsFromDummy :=
    if firstOutput then dummyWss.filter (fun ws => !ws.is_dummy) else []
  let rootOutputs := existing ++ [⟨onId, onPos, []⟩]
  let wsFromOutputs :=
    (rootOutputs.filter (fun o => o.oid != onId)).flatMap (fun source =>
      source.workspaces.filter (fun ws =>
        !ws.is_dummy && ws.desired_output == outputId))
  seatActs ++ moveQueue outputId onId (wsFromDummy ++ wsFromOutputs)

/-- The migration target chosen on disconnect (lines 275–278):
`self.state.root.outputs.lock().values().next()` — the first remaining
output — or else the dummy output. -/
def disconnectTarget (remaining : List OutputSt) (dummyOut : OutputSt) :
    OutputSt :=
  match remaining with
  | o :: _ => o
  | [] => dummyOut

/-- The disconnect tail of `handle_desktop_connected` (lines 275–295).
Inputs: the workspaces hosted on the vanishing output `on`, the outputs that
remain in the display root (the handler removed `on` before choosing the
target), the dummy output, the seats, the vanishing output's node id and
`OutputId`. Returns the workspaces after the per-workspace
`visible_on_desired_output` persistence together with the trace. -/
def disconnectActions (onWss : List Workspace) (remaining : List OutputSt)
    (dummyOut : OutputSt) (seats : List Seat) (onId : Nat) (outputId : Nat) :
    List Workspace × List Action :=
  let target := disconnectTarget remaining dummyOut
  let step := fun (ws : Workspace) =>
    let ws' := if ws.desired_output == outputId then
        { ws with visible_on_desired_output := ws.visible }
      else ws
    (ws', Action.moveWs ws.wid target.oid ws.visible true)
  let moved := onWss.map step
  let seatActs := (seats.filter (fun s => s.output_node == onId)).map
    (fun s => Action.setSeatPos s.sid (centerX target.pos) (centerY target.pos))
  (moved.map Prod.fst, moved.map Prod.snd ++ seatActs)

/-- `ConnectorEvent` from the backend interface; payloads irrelevant to the
state machine are elided to unit. -/
inductive ConnectorEvent where
  | removed
  | connected
  | disconnected
  | modeChanged
  | hardwareCursor
  | available
  | unavailable
deriving DecidableEq, Repr

/-- Outcome of one arm of an event-drain loop: leave the loop, keep draining,
or hit `unreachable!` (a panic that aborts). -/
inductive LoopStep where
  | exitLoop
  | keepDraining
  | abort
deriving DecidableEq, Repr

/-- The `match event` inside the connected desktop drain loop
(lines 230–245): `Disconnected` breaks the loop, `HardwareCursor` and
`ModeChanged` are handled and draining continues, every other event hits
`unreachable!("received unexpected event {:?}", ev)`. -/
def desktopConnectedStep : ConnectorEvent → LoopStep
  | .disconnected => .exitLoop
  | .hardwareCursor => .keepDraining
  | .modeChanged => .keepDraining
  | _ => .abort

/-- The `match event` inside the connected non-desktop drain loop
(lines 316–326): `Disconnected` breaks, `Available` and `Unavailable` are
ignored, every other event hits `unreachable!`. -/
def nonDesktopConnectedStep : ConnectorEvent → LoopStep
  | .disconnected => .exitLoop
  | .available => .keepDraining
  | .unavailable => .keepDraining
  | _ => .abort

/-! ## Intrusive linked list (`src/utils/linkedlist.rs`)

`NodeData<T>` boxes live behind raw pointers; the embedding replaces pointers
by indices into a heap (a bump allocator that never reuses slots). The
source's `rc` field only governs when `dec_ref_count` frees a box; since the
embedding never reclaims slots and no claim observes deallocation, the
reference count is not modelled. The `prev`/`next`/`data` fields and every
pointer write are translated statement by statement. -/

/-- `NodeData<T>` without the reference count: `prev`/`next` raw pointers
(heap indices) and the optional payload (`None` exactly on the sentinel). -/
structure NodeData (T : Type) where
  prev : Nat
  next : Nat
  data : Option T
deriving DecidableEq, Repr

/-- The heap of `NodeData` boxes: indices `< size` are allocated. -/
structure Heap (T : Type) where
  size : Nat
  node : Nat → NodeData T

/-- Dereference a pointer; a dangling index reads as an inert node. -/
def Heap.get (h : Heap T) (i : Nat) : NodeData T :=
  if i < h.size then h.node i else ⟨0, 0, none⟩

/-- Overwrite the box at `i` (in-range writes only, like `Cell::set` behind a
valid pointer). -/
def Heap.put (h : Heap T) (i : Nat) (nd : NodeData T) : Heap T :=
  ⟨h.size, fun j => if j = i then nd else h.node j⟩

/-- `data.next.set(v)` on the box at `i`. -/
def setNext (h : Heap T) (i v : Nat) : Heap T :=
  h.put i { h.get i with next := v }

/-- `data.prev.set(v)` on the box at `i`. -/
def setPrev (h : Heap T) (i v : Nat) : Heap T :=
  h.put i { h.get i with prev := v }

/-- `Box::into_raw(Box::new(nd))`: bump allocation returning the new heap and
the fresh pointer. -/
def Heap.alloc (h : Heap T) (nd : NodeData T) : Heap T × Nat :=
  (⟨h.size + 1, fun j => if j = h.size then nd else h.node j⟩, h.size)

/-- `LinkedList::new()`: allocate the sentinel with `prev`/`next` pointing at
itself and no payload; returns the heap and the root pointer (the fresh
pointer of the allocation is `h.size`). -/
def newList (h : Heap T) : Heap T × Nat :=
  let h1 := (h.alloc ⟨0, 0, none⟩).1
  (setNext (setPrev h1 h.size h.size) h.size h.size, h.size)

/-- `unsafe fn append(data, t)` (lines 304–315): allocate
`NodeData { prev: data, next: dref.next.get(), data: Some(t) }` (the fresh
pointer is `h.size`), then `dref.next.get().as_ref().prev.set(node)` and
`dref.next.set(node)`. Each pointer is re-read from the current heap exactly
where the source re-reads the cell. -/
def append (h : Heap T) (p : Nat) (t : T) : Heap T × Nat :=
  let h1 := (h.alloc ⟨p, (h.get p).next, some t⟩).1
  let h2 := setPrev h1 (h1.get p).next h.size
  (setNext h2 p h.size, h.size)

/-- `unsafe fn prepend(data, t)` (lines 291–302): allocate
`NodeData { prev: dref.prev.get(), next: data, data: Some(t) }`, then
`dref.prev.get().as_ref().next.set(node)` and `dref.prev.set(node)`. -/
def prepend (h : Heap T) (p : Nat) (t : T) : Heap T × Nat :=
  let h1 := (h.alloc ⟨(h.get p).prev, p, some t⟩).1
  let h2 := setNext h1 (h1.get p).prev h.size
  (setPrev h2 p h.size, h.size)

/-- `LinkedList::add_first(t)` is `self.root.append(t)`. -/
def add_first (h : Heap T) (root : Nat) (t : T) : Heap T × Nat :=
  append h root t

/-- `LinkedList::add_last(t)` is `self.root.prepend(t)`. -/
def add_last (h : Heap T) (root : Nat) (t : T) : Heap T × Nat :=
  prepend h root t

/-- `LinkedList::endpoint(ep)`: `Some` iff the endpoint is not the sentinel. -/
def endpoint (root ep : Nat) : Option Nat :=
  if ep ≠ root then some ep else none

/-- `LinkedList::first()` = `endpoint(root.next)`. -/
def firstNode (h : Heap T) (root : Nat) : Option Nat :=
  endpoint root (h.get root).next

/-- `LinkedList::last()` = `endpoint(root.prev)`. -/
def lastNode (h : Heap T) (root : Nat) : Option Nat :=
  endpoint root (h.get root).prev

/-- `NodeRef::peer` specialised to `prev` (lines 221–239): read the `prev`
pointer, return it iff its payload is present (the sentinel carries none). -/
def nodePrev (h : Heap T) (p : Nat) : Option Nat :=
  let other := (h.get p).prev
  if (h.get other).data.isSome then some other else none

/-- `NodeRef::peer` specialised to `next` (lines 221–243). -/
def nodeNext (h : Heap T) (p : Nat) : Option Nat :=
  let other := (h.get p).next
  if (h.get other).data.isSome then some other else none

/-- `impl Drop for LinkedNode` (lines 259–272), the unlink: splice the
neighbours together, then point the node's own `prev`/`next` at itself.
Statements in source order, every pointer re-read where the source reads the
cell (`dec_ref_count` elided: no claim reaches a freed box). -/
def dropNode (h : Heap T) (p : Nat) : Heap T :=
  let h1 := setNext h (h.get p).prev (h.get p).next
  let h2 := setPrev h1 (h1.get p).next (h1.get p).prev
  let h3 := setPrev h2 p p
  let h4 := setNext h3 p p
  h4

/-- `LinkedListIter` state: the sentinel pointer and the cursor `next`. -/
structure Iter where
  root : Nat
  next : Nat
deriving DecidableEq, Repr

/-- `LinkedList::iter()` (lines 72–82): the cursor starts at `root.next`. -/
def iterNew (h : Heap T) (root : Nat) : Iter :=
  ⟨root, (h.get root).next⟩

/-- `LinkedList::rev_iter()` (lines 84–94): the cursor starts at `root.prev`. -/
def revIterNew (h : Heap T) (root : Nat) : Iter :=
  ⟨root, (h.get root).prev⟩

/-- `impl Iterator for LinkedListIter` (lines 102–116): finish when the
cursor reached the sentinel, otherwise yield the cursor and advance it along
`next`. -/
def iterNext (h : Heap T) (it : Iter) : Option (Nat × Iter) :=
  if it.root = it.next then none
  else some (it.next, ⟨it.root, (h.get it.next).next⟩)

/-- `impl Iterator for RevLinkedListIter` (lines 132–146): advance along
`prev`. -/
def revIterNext (h : Heap T) (it : Iter) : Option (Nat × Iter) :=
  if it.root = it.next then none
  else some (it.next, ⟨it.root, (h.get it.next).prev⟩)

/-- Drive `iterNext` to completion on an unchanging heap, bounded by `fuel`;
returns the pointers yielded in order. -/
def iterRun (h : Heap T) (it : Iter) : Nat → List Nat
  | 0 => []
  | fuel + 1 =>
    match iterNext h it with
    | none => []
    | some (p, it') => p :: iterRun h it' fuel

/-- Drive `revIterNext` to completion, bounded by `fuel`. -/
def revIterRun (h : Heap T) (it : Iter) : Nat → List Nat
  | 0 => []
  | fuel + 1 =>
    match revIterNext h it with
    | none => []
    | some (p, it') => p :: revIterRun h it' fuel

/-! ### List-shape predicates -/

/-- `seg h p xs q`: starting from predecessor `p`, the pointers `xs` form a
doubly linked segment ending at `q`: `p.next = x₁`, `x₁.prev = p`, …,
`xₙ.next = q`, `q.prev = xₙ`, and every `xᵢ` carries a payload. -/
def seg (h : Heap T) : Nat → List Nat → Nat → Prop
  | p, [], q => (h.get p).next = q ∧ (h.get q).prev = p
  | p, x :: xs, q =>
      (h.get p).next = x ∧ (h.get x).prev = p ∧ (h.get x).data.isSome
        ∧ seg h x xs q

instance (h : Heap T) (p : Nat) (xs : List Nat) (q : Nat) :
    Decidable (seg h p xs q) := by
  induction xs generalizing p with
  | nil => exact inferInstanceAs (Decidable (_ ∧ _))
  | cons x xs ih => exact @instDecidableAnd _ _ _ (@instDecidableAnd _ _ _
      (@instDecidableAnd _ _ _ (ih x)))

/-- Well-formed list: the sentinel has no payload, the cycle
`root → xs → root` is doubly linked, all pointers are allocated and distinct. -/
def WF (h : Heap T) (root : Nat) (xs : List Nat) : Prop :=
  (h.get root).data = none ∧ seg h root xs root
    ∧ (root :: xs).Nodup ∧ ∀ x ∈ root :: xs, x < h.size

/-- `fwdOK h root q xs`: the forward chain reachable from cursor `q` is
exactly `xs` and then the sentinel; only `next` pointers and payload presence
are constrained (what the forward iterator reads). -/
def fwdOK (h : Heap T) (root : Nat) : Nat → List Nat → Prop
  | q, [] => q = root
  | q, x :: xs => q = x ∧ (h.get x).data.isSome ∧ fwdOK h root (h.get x).next xs

instance [DecidableEq T] (h : Heap T) (root : Nat) (xs : List Nat) :
    Decidable (WF h root xs) := by
  unfold WF
  infer_instance

/-! ### Concrete lists for witnesses and counterexamples -/

/-- The empty heap over `Nat` payloads. -/
def emptyHeap : Heap Nat := ⟨0, fun _ => ⟨0, 0, none⟩⟩

/-- `LinkedList::new()` on the empty heap; the sentinel is pointer `0`. -/
def exH0 : Heap Nat := (newList emptyHeap).1

/-- `add_last(10)` on the fresh list; the element is pointer `1`. -/
def exH1 : Heap Nat := (add_last exH0 0 10).1

/-- `add_last(20)` after that; the element is pointer `2` and the list reads
`[1, 2]`. -/
def exH2 : Heap Nat := (add_last exH1 0 20).1

/-! ## Client object core

`client.rs` is not among the sources; the operations the handlers call are
modelled from the spec (§3 "Client", §4.4). -/

/-- Interface tags for the objects the claims touch. -/
inductive IfaceTag where
  | wlSurface
  | xdgSurface
  | xdgWmBase
  | zwpPrimarySelectionSourceV1
deriving DecidableEq, Repr

/-- Client-core errors, from the spec error taxonomy (§4.4, §7). -/
inductive ClientError where
  | unknownObject
  | interfaceMismatch
  | idInUse
deriving DecidableEq, Repr

/-- Modelled from the spec: the per-client state of the object/dispatch core
(`client.rs` is missing) — the primary id→object table as an association
list id ↦ interface tag, the first-wins pending-protocol-error latch
`(object id, error code)`, and the scheduled-shutdown flag (§3, §4.4). -/
structure Client where
  objects : List (Nat × IfaceTag)
  protoError : Option (Nat × Nat)
  shutdown : Bool
deriving DecidableEq, Repr

/-- Modelled from the spec: `lookup<I>(id)` — `UnknownObject` if the id is
absent, `InterfaceMismatch` if present with another interface (§4.4). -/
def Client.lookup (c : Client) (objId : Nat) (tag : IfaceTag) :
    Except ClientError Nat :=
  match c.objects.lookup objId with
  | none => .error .unknownObject
  | some t => if t = tag then .ok objId else .error .interfaceMismatch

/-- Modelled from the spec: `remove_obj(obj)` removes the id from the
table (§4.4). -/
def Client.remove_obj (c : Client) (objId : Nat) : Client :=
  { c with objects := c.objects.filter (fun e => e.1 != objId) }

/-- Modelled from the spec: `add_client_obj(obj)` — fails `IdInUse` when the
id is already bound (§4.4). -/
def Client.add_client_obj (c : Client) (objId : Nat) (tag : IfaceTag) :
    Except ClientError Client :=
  if (c.objects.lookup objId).isSome then .error .idInUse
  else .ok { c with objects := (objId, tag) :: c.objects }

/-- Modelled from the spec: `protocol_error(obj, code, description)` sets the
first-wins latch and schedules client shutdown; idempotent, subsequent calls
are swallowed (§4.4). -/
def Client.protocol_error (c : Client) (objId code : Nat) : Client :=
  match c.protoError with
  | some _ => c
  | none => { c with protoError := some (objId, code), shutdown := true }

/-! ## `xdg_wm_base` (`src/ifs/xdg_wm_base.rs`) -/

/-- `const DEFUNCT_SURFACES: u32 = 1` (line 16). -/
def DEFUNCT_SURFACES : Nat := 1

/-- `XdgWmBase` (lines 30–35): its id, version and the `surfaces` table
(`CopyHashMap<XdgSurfaceId, Rc<XdgSurface>>`, modelled as the list of bound
surface ids, `set` replacing an existing key). -/
structure XdgWmBase where
  id : Nat
  version : Nat
  surfaces : List Nat
deriving DecidableEq, Repr

/-- `CopyHashMap::set` on the key set: bind `k`, replacing an existing
binding. -/
def copyMapSet (m : List Nat) (k : Nat) : List Nat :=
  k :: m.filter (fun x => x != k)

/-- `DestroyError` (lines 156–164); the parse variant is unreachable here
because the embedding starts after a successful parse. -/
inductive DestroyError where
  | parseError
  | defunctSurfaces
  | clientError (e : ClientError)
deriving DecidableEq, Repr

/-- `GetXdgSurfaceError` (lines 178–186). -/
inductive GetXdgSurfaceError where
  | parseError
  | clientError (e : ClientError)
  | xdgSurfaceError
deriving DecidableEq, Repr

/-- `XdgWmBase::destroy` (lines 60–75), after a successful parse: if the
`surfaces` table is non-empty, emit protocol error `DEFUNCT_SURFACES` on this
object and return `Err(DefunctSurfaces)`; otherwise `remove_obj` the object
from the client's table. Returns the handler result and the client state. -/
def XdgWmBase.destroy (wm : XdgWmBase) (c : Client) :
    Except DestroyError Unit × Client :=
  if ¬ wm.surfaces.isEmpty then
    (.error .defunctSurfaces, c.protocol_error wm.id DEFUNCT_SURFACES)
  else
    (.ok (), c.remove_obj wm.id)

/-- `XdgWmBase::get_xdg_surface` (lines 87–98), after a successful parse:
look up the `wl_surface` argument, register the new `xdg_surface` object,
`install()` it (`xdg_surface.rs` is an opaque collaborator; its success is
the `installOk` input, and on failure the `?` aborts before the table
update), then bind it in this object's `surfaces` table. -/
def XdgWmBase.get_xdg_surface (wm : XdgWmBase) (c : Client)
    (reqId surfaceId : Nat) (installOk : Bool) :
    Except GetXdgSurfaceError (XdgWmBase × Client) :=
  match c.lookup surfaceId .wlSurface with
  | .error e => .error (.clientError e)
  | .ok _ =>
    match c.add_client_obj reqId .xdgSurface with
    | .error e => .error (.clientError e)
    | .ok c' =>
      if installOk then
        .ok ({ wm with surfaces := copyMapSet wm.surfaces reqId }, c')
      else .error .xdgSurfaceError

/-! ## Primary-selection device (`src/ifs/zwp_primary_selection_device_v1.rs`) -/

/-- `ZwpPrimarySelectionDeviceV1::set_selection` (lines 45–54), after a
successful parse: a null source id (`req.source.is_none()`, the wire null
object id `0`) skips the table lookup and passes `None` to
`set_primary_selection`; otherwise the source is looked up and passed as
`Some`, a lookup failure propagating as the handler's error. `Ok v` returns
the argument passed to `set_primary_selection` (whose own failures are
beyond the modelled boundary). -/
def set_selection (c : Client) (source : Nat) :
    Except ClientError (Option Nat) :=
  if source = 0 then .ok none
  else
    match c.lookup source .zwpPrimarySelectionSourceV1 with
    | .error e => .error e
    | .ok s => .ok (some s)

/-! ## Workspace node (`src/tree/workspace.rs`) -/

/-- Modelled from the spec: the `ContainerNode` fields the workspace claims
observe (`src/tree/container.rs` is not among the sources). Its
`node_set_visible` propagates visibility into the container's subtree
(§4.6); only the container's own visibility flag, extents and workspace
back-link are retained here. -/
structure ContainerNode where
  visible : Bool
  extents : Rect
  workspace : Option Nat
deriving DecidableEq, Repr

/-- Modelled from the spec: `NodeSeatState::set_visible` reports visibility
to focus tracking (§4.6); retained as the last reported value. -/
structure NodeSeatState where
  lastVisible : Option Bool
deriving DecidableEq, Repr

/-- The fields of `WorkspaceNode` (lines 21–31) that the claims observe. -/
structure WorkspaceNode where
  id : Nat
  position : Rect
  container : Option ContainerNode
  seat_state : NodeSeatState
  visible : Bool
deriving DecidableEq, Repr

/-- `WorkspaceNode::set_visible` (lines 84–90): store the flag, propagate to
the container child via `node_set_visible`, update the seat state. -/
def WorkspaceNode.set_visible (w : WorkspaceNode) (v : Bool) : WorkspaceNode :=
  { w with
    visible := v
    container := w.container.map (fun c => { c with visible := v })
    seat_state := ⟨some v⟩ }

/-- `WorkspaceNode::set_container` (lines 34–41): `change_extents` to the
workspace's position, `set_workspace(self)`, `set_visible(self.visible.get())`,
then store the container. -/
def WorkspaceNode.set_container (w : WorkspaceNode) (c : ContainerNode) :
    WorkspaceNode :=
  let c1 := { c with extents := w.position }
  let c2 := { c1 with workspace := some w.id }
  let c3 := { c2 with visible := w.visible }
  { w with container := some c3 }

/-! ### Heap access lemmas -/

theorem size_put (h : Heap T) (i : Nat) (nd : NodeData T) :
    (h.put i nd).size = h.size := rfl

theorem get_put_self (h : Heap T) (i : Nat) (nd : NodeData T) (hi : i < h.size) :
    (h.put i nd).get i = nd := by
  simp [Heap.put, Heap.get, hi]

theorem get_put_ne (h : Heap T) (i : Nat) (nd : NodeData T) (x : Nat)
    (hx : x ≠ i) : (h.put i nd).get x = h.get x := by
  simp [Heap.put, Heap.get, hx]

theorem size_setNext (h : Heap T) (i v : Nat) : (setNext h i v).size = h.size := rfl

theorem size_setPrev (h : Heap T) (i v : Nat) : (setPrev h i v).size = h.size := rfl

theorem get_setNext_ne (h : Heap T) (i v x : Nat) (hx : x ≠ i) :
    (setNext h i v).get x = h.get x := get_put_ne _ _ _ _ hx

theorem get_setPrev_ne (h : Heap T) (i v x : Nat) (hx : x ≠ i) :
    (setPrev h i v).get x = h.get x := get_put_ne _ _ _ _ hx

theorem get_setNext_self (h : Heap T) (i v : Nat) (hi : i < h.size) :
    (setNext h i v).get i = { h.get i with next := v } := get_put_self _ _ _ hi

theorem get_setPrev_self (h : Heap T) (i v : Nat) (hi : i < h.size) :
    (setPrev h i v).get i = { h.get i with prev := v } := get_put_self _ _ _ hi

/-- Writing a `next` field never changes any `prev` field. -/
theorem prev_setNext (h : Heap T) (i v x : Nat) :
    ((setNext h i v).get x).prev = (h.get x).prev := by
  by_cases hx : x = i
  · subst hx
    by_cases hi : x < h.size
    · rw [get_setNext_self _ _ _ hi]
    · simp [setNext, Heap.put, Heap.get, hi]
  · rw [get_setNext_ne _ _ _ _ hx]

/-- Writing a `next` field never changes any payload. -/
theorem data_setNext (h : Heap T) (i v x : Nat) :
    ((setNext h i v).get x).data = (h.get x).data := by
  by_cases hx : x = i
  · subst hx
    by_cases hi : x < h.size
    · rw [get_setNext_self _ _ _ hi]
    · simp [setNext, Heap.put, Heap.get, hi]
  · rw [get_setNext_ne _ _ _ _ hx]

/-- Writing a `prev` field never changes any `next` field. -/
theorem next_setPrev (h : Heap T) (i v x : Nat) :
    ((setPrev h i v).get x).next = (h.get x).next := by
  by_cases hx : x = i
  · subst hx
    by_cases hi : x < h.size
    · rw [get_setPrev_self _ _ _ hi]
    · simp [setPrev, Heap.put, Heap.get, hi]
  · rw [get_setPrev_ne _ _ _ _ hx]

/-- Writing a `prev` field never changes any payload. -/
theorem data_setPrev (h : Heap T) (i v x : Nat) :
    ((setPrev h i v).get x).data = (h.get x).data := by
  by_cases hx : x = i
  · subst hx
    by_cases hi : x < h.size
    · rw [get_setPrev_self _ _ _ hi]
    · simp [setPrev, Heap.put, Heap.get, hi]
  · rw [get_setPrev_ne _ _ _ _ hx]

theorem next_setNext_self (h : Heap T) (i v : Nat) (hi : i < h.size) :
    ((setNext h i v).get i).next = v := by rw [get_setNext_self _ _ _ hi]

theorem prev_setPrev_self (h : Heap T) (i v : Nat) (hi : i < h.size) :
    ((setPrev h i v).get i).prev = v := by rw [get_setPrev_self _ _ _ hi]

theorem alloc_size (h : Heap T) (nd : NodeData T) :
    (h.alloc nd).1.size = h.size + 1 := rfl

theorem get_alloc_old (h : Heap T) (nd : NodeData T) (x : Nat) (hx : x < h.size) :
    (h.alloc nd).1.get x = h.get x := by
  have hx' : x ≠ h.size := Nat.ne_of_lt hx
  simp [Heap.alloc, Heap.get, hx, hx', Nat.lt_succ_of_lt hx]

theorem get_alloc_new (h : Heap T) (nd : NodeData T) :
    (h.alloc nd).1.get h.size = nd := by
  simp [Heap.alloc, Heap.get]

theorem size_dropNode (h : Heap T) (p : Nat) : (dropNode h p).size = h.size := rfl

/-- `dropNode` never changes any payload. -/
theorem data_dropNode (h : Heap T) (p x : Nat) :
    ((dropNode h p).get x).data = (h.get x).data := by
  unfold dropNode
  rw [data_setNext, data_setPrev, data_setPrev, data_setNext]

/-! ### List-shape lemmas -/

/-- A segment only reads the `next` pointers of `p :: xs`, the `prev`
pointers of `q :: xs` and the payloads of `xs`; heaps agreeing there describe
the same segments. -/
theorem seg_congr {h h' : Heap T} {p q : Nat} {xs : List Nat}
    (hn : ∀ x ∈ p :: xs, (h'.get x).next = (h.get x).next)
    (hp : ∀ x ∈ q :: xs, (h'.get x).prev = (h.get x).prev)
    (hd : ∀ x ∈ xs, (h'.get x).data = (h.get x).data) :
    seg h' p xs q ↔ seg h p xs q := by
  induction xs generalizing p with
  | nil =>
    simp only [seg]
    rw [hn p (by simp), hp q (by simp)]
  | cons x xs ih =>
    simp only [seg]
    rw [hn p (by simp), hp x (by simp), hd x (by simp)]
    have ihx := ih (p := x)
      (fun y hy => hn y (by simp only [List.mem_cons] at hy ⊢; tauto))
      (fun y hy => hp y (by simp only [List.mem_cons] at hy ⊢; tauto))
      (fun y hy => hd y (by simp [hy]))
    rw [ihx]

/-- Splitting a segment at an interior element. -/
theorem seg_append_cons {h : Heap T} {p q b : Nat} {as bs : List Nat} :
    seg h p (as ++ b :: bs) q
      ↔ seg h p as b ∧ (h.get b).data.isSome ∧ seg h b bs q := by
  induction as generalizing p with
  | nil => simp only [List.nil_append, seg]; tauto
  | cons a as ih =>
    simp only [List.cons_append, seg, List.append_eq]
    rw [ih]
    tauto

/-- `getLastD` of a snoc. -/
theorem getLastD_snoc (as : List Nat) (b d : Nat) :
    (as ++ [b]).getLastD d = b := by
  induction as generalizing d with
  | nil => rfl
  | cons a as ih => rw [List.cons_append, List.getLastD_cons]; exact ih a

/-- The element before the right end of a segment. -/
theorem seg_last_prev {h : Heap T} {p q : Nat} {xs : List Nat}
    (hs : seg h p xs q) : (h.get q).prev = xs.getLastD p := by
  induction xs generalizing p with
  | nil => exact hs.2
  | cons x xs ih =>
    rw [List.getLastD_cons]
    exact ih hs.2.2.2

/-- The last `next` pointer of a segment. -/
theorem seg_last_next {h : Heap T} {p q : Nat} {xs : List Nat}
    (hs : seg h p xs q) : (h.get (xs.getLastD p)).next = q := by
  induction xs generalizing p with
  | nil => exact hs.1
  | cons x xs ih =>
    rw [List.getLastD_cons]
    exact ih hs.2.2.2

/-- A segment closing at the sentinel induces the forward-iterator chain. -/
theorem seg_fwdOK {h : Heap T} {root p : Nat} {xs : List Nat}
    (hs : seg h p xs root) : fwdOK h root (h.get p).next xs := by
  induction xs generalizing p with
  | nil => exact hs.1
  | cons x xs ih =>
    exact ⟨hs.1, hs.2.2.1, ih hs.2.2.2⟩

/-- The forward chain only reads `next` and payloads of its members. -/
theorem fwdOK_congr {h h' : Heap T} {root q : Nat} {xs : List Nat}
    (hn : ∀ x ∈ xs, (h'.get x).next = (h.get x).next)
    (hd : ∀ x ∈ xs, (h'.get x).data = (h.get x).data) :
    fwdOK h' root q xs ↔ fwdOK h root q xs := by
  induction xs generalizing q with
  | nil => simp [fwdOK]
  | cons x xs ih =>
    simp only [fwdOK]
    rw [hd x (by simp), hn x (by simp)]
    have ihx := ih (q := (h.get x).next)
      (fun y hy => hn y (by simp [hy])) (fun y hy => hd y (by simp [hy]))
    rw [ihx]

/-- Running the forward iterator along an intact chain yields exactly the
chain, with any sufficient fuel. -/
theorem iterRun_fwdOK {h : Heap T} {root q : Nat} {xs : List Nat} {fuel : Nat}
    (hroot : (h.get root).data = none) (hf : fwdOK h root q xs)
    (hfuel : xs.length < fuel) :
    iterRun h ⟨root, q⟩ fuel = xs := by
  induction xs generalizing q fuel with
  | nil =>
    cases fuel with
    | zero => exact absurd hfuel (by simp)
    | succ fuel =>
      have hq : q = root := hf
      simp [iterRun, iterNext, hq]
  | cons x xs ih =>
    cases fuel with
    | zero => exact absurd hfuel (by simp)
    | succ fuel =>
      obtain ⟨rfl, hdx, hrest⟩ := hf
      have hne : root ≠ q := by
        intro hEq
        rw [← hEq, hroot] at hdx
        simp at hdx
      simp only [iterRun, iterNext, if_neg hne]
      rw [ih hrest (Nat.lt_of_succ_lt_succ hfuel)]

/-- Running the reverse iterator backwards across a segment yields the
segment reversed, then continues from the segment's left end. -/
theorem revIterRun_seg {h : Heap T} {root p q : Nat} {xs : List Nat} {m : Nat}
    (hroot : (h.get root).data = none) (hs : seg h p xs q) :
    revIterRun h ⟨root, xs.getLastD p⟩ (xs.length + m)
      = xs.reverse ++ revIterRun h ⟨root, p⟩ m := by
  induction xs using List.reverseRecOn generalizing q with
  | nil => simp
  | append_singleton as b ih =>
    obtain ⟨hseg_as, hdb, hseg_b⟩ := seg_append_cons.mp hs
    have hbprev : (h.get b).prev = as.getLastD p := seg_last_prev hseg_as
    have hne : root ≠ b := by
      intro hEq
      rw [← hEq, hroot] at hdb
      simp at hdb
    rw [getLastD_snoc]
    have hlen : (as ++ [b]).length + m = ((as.length + m) : Nat) + 1 := by
      simp [List.length_append]; omega
    rw [hlen]
    simp only [revIterRun, revIterNext, hne, if_false]
    rw [hbprev, ih hseg_as]
    simp

/-- The reverse iterator halts immediately once the cursor is the sentinel. -/
theorem revIterRun_root (h : Heap T) (root m : Nat) :
    revIterRun h ⟨root, root⟩ m = [] := by
  cases m <;> simp [revIterRun, revIterNext]

/-- `getLastD` picks an element of the defaulted cons. -/
theorem getLastD_mem_cons (as : List Nat) (d : Nat) : as.getLastD d ∈ d :: as := by
  induction as generalizing d with
  | nil => simp [List.getLastD]
  | cons a as ih =>
    rw [List.getLastD_cons]
    have := ih a
    simp only [List.mem_cons] at this ⊢
    tauto

/-! ### Unlink (`dropNode`) slot lemmas

Throughout, `l` abbreviates `(h.get u).prev` and `r` abbreviates
`(h.get u).next` — the neighbours at the time of the unlink. -/

/-- A slot that is neither the node nor its left neighbour keeps its `next`. -/
theorem next_dropNode_ne (h : Heap T) (u y : Nat) (hyu : y ≠ u)
    (hyl : y ≠ (h.get u).prev) :
    ((dropNode h u).get y).next = (h.get y).next := by
  unfold dropNode
  rw [get_setNext_ne _ _ _ _ hyu, next_setPrev, next_setPrev,
    get_setNext_ne _ _ _ _ hyl]

/-- After the unlink, the left neighbour's `next` is the right neighbour
(provided the node was not self-linked). -/
theorem next_dropNode_prevSlot (h : Heap T) (u : Nat)
    (hlu : (h.get u).prev ≠ u) (hl : (h.get u).prev < h.size) :
    ((dropNode h u).get (h.get u).prev).next = (h.get u).next := by
  unfold dropNode
  rw [get_setNext_ne _ _ _ _ hlu, next_setPrev, next_setPrev,
    next_setNext_self _ _ _ hl]

/-- A slot that is neither the node nor its right neighbour keeps its
`prev`. -/
theorem prev_dropNode_ne (h : Heap T) (u y : Nat) (hyu : y ≠ u)
    (hyr : y ≠ (h.get u).next) (hlu : (h.get u).prev ≠ u) :
    ((dropNode h u).get y).prev = (h.get y).prev := by
  unfold dropNode
  have hgu : (setNext h (h.get u).prev (h.get u).next).get u = h.get u :=
    get_setNext_ne _ _ _ _ (Ne.symm hlu)
  rw [prev_setNext, get_setPrev_ne _ _ _ _ hyu, hgu,
    get_setPrev_ne _ _ _ _ hyr, prev_setNext]

/-- After the unlink, the right neighbour's `prev` is the left neighbour
(provided the node was not self-linked). -/
theorem prev_dropNode_nextSlot (h : Heap T) (u : Nat)
    (hlu : (h.get u).prev ≠ u) (hru : (h.get u).next ≠ u)
    (hr : (h.get u).next < h.size) :
    ((dropNode h u).get (h.get u).next).prev = (h.get u).prev := by
  unfold dropNode
  have hgu : (setNext h (h.get u).prev (h.get u).next).get u = h.get u :=
    get_setNext_ne _ _ _ _ (Ne.symm hlu)
  rw [prev_setNext, get_setPrev_ne _ _ _ _ hru, hgu,
    prev_setPrev_self]
  rw [size_setNext]
  exact hr

/-- After the unlink, the node's own `prev` and `next` point at itself. -/
theorem self_dropNode (h : Heap T) (u : Nat) (hu : u < h.size) :
    ((dropNode h u).get u).prev = u ∧ ((dropNode h u).get u).next = u := by
  unfold dropNode
  constructor
  · rw [prev_setNext, prev_setPrev_self]
    exact hu
  · rw [next_setNext_self]
    exact hu

/-- Unlinking a live element of a well-formed list leaves a well-formed list
over the remaining elements. -/
theorem WF_dropNode {h : Heap T} {root u : Nat} {xs : List Nat}
    (hwf : WF h root xs) (hu : u ∈ xs) :
    WF (dropNode h u) root (xs.erase u) := by
  obtain ⟨hdata, hseg, hnodup, hbound⟩ := hwf
  obtain ⟨as, bs, rfl⟩ := List.append_of_mem hu
  have hrall : root ∉ as ++ u :: bs := (List.nodup_cons.mp hnodup).1
  have hru : root ≠ u := by
    intro hEq; exact hrall (by simp [hEq])
  have hras : root ∉ as := fun hmem => hrall (by simp [hmem])
  have hrbs : root ∉ bs := fun hmem => hrall (by simp [hmem])
  have hmid : (u :: (as ++ bs)).Nodup :=
    List.nodup_middle.mp (List.nodup_cons.mp hnodup).2
  have hu_nmem : u ∉ as ++ bs := (List.nodup_cons.mp hmid).1
  have huas : u ∉ as := fun hmem => hu_nmem (by simp [hmem])
  have hubs : u ∉ bs := fun hmem => hu_nmem (by simp [hmem])
  have habs : (as ++ bs).Nodup := (List.nodup_cons.mp hmid).2
  have hnas : as.Nodup := (List.nodup_append.mp habs).1
  have hnbs : bs.Nodup := (List.nodup_append.mp habs).2.1
  have hdisj : as.Disjoint bs := (List.nodup_append.mp habs).2.2
  have herase : (as ++ u :: bs).erase u = as ++ bs := by
    rw [List.erase_append_right _ huas, List.erase_cons_head]
  obtain ⟨hsegL, hdu, hsegR⟩ := seg_append_cons.mp hseg
  have hlu : (h.get u).prev = as.getLastD root := seg_last_prev hsegL
  have hl_mem : as.getLastD root ∈ root :: as := getLastD_mem_cons as root
  have hl_ne_u : as.getLastD root ≠ u := by
    rcases List.mem_cons.mp hl_mem with hEq | hmem
    · rw [hEq]; exact hru
    · intro hc; rw [hc] at hmem; exact huas hmem
  have hl_lt : as.getLastD root < h.size := by
    apply hbound
    rcases List.mem_cons.mp hl_mem with hEq | hmem
    · rw [hEq]; exact List.mem_cons_self _ _
    · exact List.mem_cons_of_mem _ (List.mem_append_left _ hmem)
  have hlu' : (h.get u).prev ≠ u := by rw [hlu]; exact hl_ne_u
  have hlu_lt : (h.get u).prev < h.size := by rw [hlu]; exact hl_lt
  have hu_lt : u < h.size := hbound u (by simp)
  have k1 : ((dropNode h u).get (as.getLastD root)).next = (h.get u).next := by
    rw [← hlu]
    exact next_dropNode_prevSlot h u hlu' hlu_lt
  refine ⟨?_, ?_, ?_, ?_⟩
  · rw [data_dropNode]; exact hdata
  · -- the spliced cycle
    rw [herase]
    cases bs with
    | nil =>
      obtain ⟨hun, hrp⟩ := hsegR
      have k2 : ((dropNode h u).get root).prev = as.getLastD root := by
        have := prev_dropNode_nextSlot h u hlu'
          (by rw [hun]; exact hru) (by rw [hun]; exact hbound root (by simp))
        rw [hun] at this
        rw [this, hlu]
      rcases List.eq_nil_or_concat as with hnil | ⟨as0, a1, hcat⟩
      · subst hnil
        have hl0 : ([] : List Nat).getLastD root = root := rfl
        rw [hl0] at k1 k2
        simp only [List.append_nil]
        exact ⟨by rw [k1, hun], k2⟩
      · rw [List.concat_eq_append] at hcat
        subst hcat
        have hl_eq : (as0 ++ [a1]).getLastD root = a1 := getLastD_snoc _ _ _
        rw [List.append_nil]
        obtain ⟨hsegL0, hda1, hsegL1⟩ :=
          seg_append_cons.mp (hsegL : seg h root (as0 ++ a1 :: []) u)
        have ha1_as : a1 ∈ as0 ++ [a1] := by simp
        have ha1_nr : a1 ≠ root := by
          intro hEq; exact hras (by rw [← hEq]; exact ha1_as)
        have ha1_nas0 : a1 ∉ as0 := by
          have := List.nodup_append.mp hnas
          intro hc
          exact (this.2.2 hc) (by simp)
        refine seg_append_cons.mpr ⟨?_, by rw [data_dropNode]; exact hda1, ?_⟩
        · -- untouched prefix
          rw [seg_congr (h := h)]
          · exact hsegL0
          · intro y hy
            apply next_dropNode_ne
            · intro hEq
              rcases List.mem_cons.mp hy with h1 | h1
              · exact hru (by rw [← h1, hEq])
              · exact huas (by rw [← hEq]; simp [h1])
            · rw [hlu, hl_eq]
              intro hEq
              rcases List.mem_cons.mp hy with h1 | h1
              · exact ha1_nr (by rw [← hEq, h1])
              · exact ha1_nas0 (hEq ▸ h1)
          · intro y hy
            apply prev_dropNode_ne h u y ?_ ?_ hlu'
            · intro hEq
              rcases List.mem_cons.mp hy with h1 | h1
              · exact huas (by rw [← hEq]; simp [h1])
              · exact huas (by rw [← hEq]; simp [h1])
            · rw [hun]
              intro hEq
              rcases List.mem_cons.mp hy with h1 | h1
              · exact ha1_nr (by rw [← h1, hEq])
              · exact hras (by rw [← hEq]; simp [h1])
          · intro y _
            rw [data_dropNode]
        · -- the new end cap a1 → root
          rw [hl_eq] at k1 k2
          refine ⟨?_, ?_⟩
          · rw [k1, hun]
          · exact k2
    | cons b rest =>
      obtain ⟨hun, hbp, hdb, hsegRest⟩ := hsegR
      have hb_bs : b ∈ b :: rest := by simp
      have hb_ne_u : b ≠ u := by intro hEq; exact hubs (hEq ▸ hb_bs)
      have hb_lt : b < h.size := hbound b (by simp)
      have hb_nr : b ≠ root := by intro hEq; exact hrbs (hEq ▸ hb_bs)
      have hb_nrest : b ∉ rest := (List.nodup_cons.mp hnbs).1
      have k2 : ((dropNode h u).get b).prev = as.getLastD root := by
        have := prev_dropNode_nextSlot h u hlu'
          (by rw [hun]; exact hb_ne_u) (by rw [hun]; exact hb_lt)
        rw [hun] at this
        rw [this, hlu]
      have hframe : seg (dropNode h u) b rest root = seg h b rest root := by
        apply propext
        apply seg_congr
        · intro y hy
          apply next_dropNode_ne
          · intro hEq
            exact hubs (hEq ▸ hy)
          · rw [hlu]
            intro hEq
            rcases List.mem_cons.mp hl_mem with h1 | h1
            · exact hrbs (by rw [← h1, ← hEq]; exact hy)
            · exact hdisj (hEq ▸ h1) hy
        · intro y hy
          apply prev_dropNode_ne h u y ?_ ?_ hlu'
          · intro hEq
            rcases List.mem_cons.mp hy with h1 | h1
            · exact hru (by rw [← h1, hEq])
            · exact hubs (by rw [← hEq]; simp [h1])
          · rw [hun]
            intro hEq
            rcases List.mem_cons.mp hy with h1 | h1
            · exact hb_nr (by rw [← h1, hEq])
            · exact hb_nrest (hEq ▸ h1)
        · intro y _
          rw [data_dropNode]
      rcases List.eq_nil_or_concat as with hnil | ⟨as0, a1, hcat⟩
      · subst hnil
        have hl0 : ([] : List Nat).getLastD root = root := rfl
        rw [hl0] at k1 k2
        simp only [List.nil_append]
        refine ⟨by rw [k1, hun], k2, by rw [data_dropNode]; exact hdb, ?_⟩
        rw [hframe]
        exact hsegRest
      · rw [List.concat_eq_append] at hcat
        subst hcat
        have hl_eq : (as0 ++ [a1]).getLastD root = a1 := getLastD_snoc _ _ _
        have hgoal : (as0 ++ [a1]) ++ b :: rest = as0 ++ a1 :: (b :: rest) := by
          simp
        rw [hgoal]
        obtain ⟨hsegL0, hda1, hsegL1⟩ :=
          seg_append_cons.mp (hsegL : seg h root (as0 ++ a1 :: []) u)
        have ha1_as : a1 ∈ as0 ++ [a1] := by simp
        have ha1_nr : a1 ≠ root := by
          intro hEq; exact hras (by rw [← hEq]; exact ha1_as)
        have ha1_nas0 : a1 ∉ as0 := by
          have := List.nodup_append.mp hnas
          intro hc
          exact (this.2.2 hc) (by simp)
        refine seg_append_cons.mpr ⟨?_, by rw [data_dropNode]; exact hda1, ?_⟩
        · rw [seg_congr (h := h)]
          · exact hsegL0
          · intro y hy
            apply next_dropNode_ne
            · intro hEq
              rcases List.mem_cons.mp hy with h1 | h1
              · exact hru (by rw [← h1, hEq])
              · exact huas (by rw [← hEq]; simp [h1])
            · rw [hlu, hl_eq]
              intro hEq
              rcases List.mem_cons.mp hy with h1 | h1
              · exact ha1_nr (by rw [← hEq, h1])
              · exact ha1_nas0 (hEq ▸ h1)
          · intro y hy
            apply prev_dropNode_ne h u y ?_ ?_ hlu'
            · intro hEq
              rcases List.mem_cons.mp hy with h1 | h1
              · exact huas (by rw [← hEq]; simp [h1])
              · exact huas (by rw [← hEq]; simp [h1])
            · rw [hun]
              intro hEq
              rcases List.mem_cons.mp hy with h1 | h1
              · exact hdisj (show y ∈ as0 ++ [a1] by rw [h1]; exact ha1_as)
                  (show y ∈ b :: rest by rw [hEq]; exact hb_bs)
              · exact hdisj (show y ∈ as0 ++ [a1] by simp [h1])
                  (show y ∈ b :: rest by rw [hEq]; exact hb_bs)
          · intro y _
            rw [data_dropNode]
        · rw [hl_eq] at k1 k2
          refine ⟨?_, ?_, by rw [data_dropNode]; exact hdb, ?_⟩
          · rw [k1, hun]
          · exact k2
          · rw [hframe]
            exact hsegRest
  · -- nodup after erase
    rw [herase]
    have hsub : (root :: (as ++ bs)).Sublist (root :: (as ++ u :: bs)) := by
      apply List.Sublist.cons₂
      apply List.Sublist.append_left
      exact List.sublist_cons_self u bs
    exact hnodup.sublist hsub
  · -- bounds after erase
    rw [herase]
    intro y hy
    rw [size_dropNode]
    apply hbound
    rcases List.mem_cons.mp hy with h1 | h1
    · simp [h1]
    · simp only [List.mem_append] at h1
      rcases h1 with h1 | h1 <;> simp [h1]

/-- `add_first` (i.e. `root.append(t)`) produces a well-formed list with the
fresh node `h.size` at the front, carrying `t`. -/
theorem WF_add_first {h : Heap T} {root : Nat} {xs : List Nat} (t : T)
    (hwf : WF h root xs) :
    WF (append h root t).1 root (h.size :: xs)
      ∧ ((append h root t).1.get h.size).data = some t := by
  obtain ⟨hdata, hseg, hnodup, hbound⟩ := hwf
  have hroot_lt : root < h.size := hbound root (by simp)
  have hnext_lt : (h.get root).next < h.size := by
    cases xs with
    | nil => rw [hseg.1]; exact hroot_lt
    | cons x rest => rw [hseg.1]; exact hbound x (by simp)
  have hroot_ne : root ≠ h.size := Nat.ne_of_lt hroot_lt
  have hnext_ne : (h.get root).next ≠ h.size := Nat.ne_of_lt hnext_lt
  set h1 := (h.alloc ⟨root, (h.get root).next, some t⟩).1 with hh1
  have hg1root : h1.get root = h.get root := get_alloc_old _ _ _ hroot_lt
  have happ : (append h root t).1
      = setNext (setPrev h1 (h.get root).next h.size) root h.size := by
    rw [← hg1root]; rfl
  have hsize' : (append h root t).1.size = h.size + 1 := by rw [happ]; rfl
  -- slot descriptions after the three writes
  have F1 : (append h root t).1.get h.size
      = ⟨root, (h.get root).next, some t⟩ := by
    rw [happ, get_setNext_ne _ _ _ _ (Ne.symm hroot_ne),
      get_setPrev_ne _ _ _ _ (Ne.symm hnext_ne), hh1, get_alloc_new]
  have F2 : ((append h root t).1.get root).next = h.size := by
    rw [happ]
    apply next_setNext_self
    rw [size_setPrev, hh1, alloc_size]
    exact Nat.lt_succ_of_lt hroot_lt
  have F4 : ∀ y, y ≠ root → y < h.size →
      ((append h root t).1.get y).next = (h.get y).next := by
    intro y hy hylt
    rw [happ, get_setNext_ne _ _ _ _ hy, next_setPrev, hh1,
      get_alloc_old _ _ _ hylt]
  have F5 : ∀ y, y ≠ (h.get root).next → y < h.size →
      ((append h root t).1.get y).prev = (h.get y).prev := by
    intro y hy hylt
    rw [happ, prev_setNext, get_setPrev_ne _ _ _ _ hy, hh1,
      get_alloc_old _ _ _ hylt]
  have F6 : ((append h root t).1.get (h.get root).next).prev = h.size := by
    rw [happ, prev_setNext]
    apply prev_setPrev_self
    rw [hh1, alloc_size]
    exact Nat.lt_succ_of_lt hnext_lt
  have F7 : ∀ y, y < h.size →
      ((append h root t).1.get y).data = (h.get y).data := by
    intro y hylt
    rw [happ, data_setNext, data_setPrev, hh1, get_alloc_old _ _ _ hylt]
  refine ⟨⟨?_, ?_, ?_, ?_⟩, by rw [F1]⟩
  · rw [F7 root hroot_lt]; exact hdata
  · refine ⟨F2, by rw [F1], by rw [F1]; rfl, ?_⟩
    cases xs with
    | nil =>
      obtain ⟨hn0, hp0⟩ := hseg
      refine ⟨?_, ?_⟩
      · rw [F1]; exact hn0
      · have := F6
        rw [hn0] at this
        exact this
    | cons x rest =>
      obtain ⟨hn0, hp0, hd0, hrest⟩ := hseg
      have hx_lt : x < h.size := hbound x (by simp)
      have hroot_nx : root ∉ x :: rest := (List.nodup_cons.mp hnodup).1
      have hx_nr : x ≠ root := by
        intro hEq; exact hroot_nx (by simp [← hEq])
      have hx_nrest : x ∉ rest :=
        (List.nodup_cons.mp (List.nodup_cons.mp hnodup).2).1
      refine ⟨by rw [F1]; exact hn0, ?_, by rw [F7 x hx_lt]; exact hd0, ?_⟩
      · have := F6
        rw [hn0] at this
        exact this
      · rw [seg_congr (h := h)]
        · exact hrest
        · intro y hy
          apply F4
          · intro hEq
            exact hroot_nx (by rw [← hEq]; simp [hy])
          · rcases List.mem_cons.mp hy with h1 | h1
            · rw [h1]; exact hx_lt
            · exact hbound y (by simp [h1])
        · intro y hy
          apply F5
          · rw [hn0]
            intro hEq
            rcases List.mem_cons.mp hy with h1 | h1
            · exact hx_nr (by rw [← hEq, h1])
            · exact hx_nrest (hEq ▸ h1)
          · rcases List.mem_cons.mp hy with h1 | h1
            · rw [h1]; exact hroot_lt
            · exact hbound y (by simp [h1])
        · intro y hy
          apply F7
          exact hbound y (by simp [hy])
  · -- no duplicates with the fresh pointer
    obtain ⟨hr_nx, hxs_nd⟩ := List.nodup_cons.mp hnodup
    refine List.nodup_cons.mpr ⟨?_, List.nodup_cons.mpr ⟨?_, hxs_nd⟩⟩
    · intro hmem
      rcases List.mem_cons.mp hmem with h1 | h1
      · exact hroot_ne h1
      · exact hr_nx h1
    · intro hmem
      exact Nat.lt_irrefl _ (hbound _ (by simp [hmem]))
  · -- bounds grow by the fresh slot
    intro y hy
    rw [hsize']
    rcases List.mem_cons.mp hy with h1 | h1
    · rw [h1]; exact Nat.lt_succ_of_lt hroot_lt
    · rcases List.mem_cons.mp h1 with h2 | h2
      · rw [h2]; exact Nat.lt_succ_self _
      · exact Nat.lt_succ_of_lt (hbound y (by simp [h2]))

/-- `add_last` (i.e. `root.prepend(t)`) produces a well-formed list with the
fresh node `h.size` at the back, carrying `t`. -/
theorem WF_add_last {h : Heap T} {root : Nat} {xs : List Nat} (t : T)
    (hwf : WF h root xs) :
    WF (prepend h root t).1 root (xs ++ [h.size])
      ∧ ((prepend h root t).1.get h.size).data = some t := by
  obtain ⟨hdata, hseg, hnodup, hbound⟩ := hwf
  have hroot_lt : root < h.size := hbound root (by simp)
  have hlast : (h.get root).prev = xs.getLastD root := seg_last_prev hseg
  have hprev_mem : xs.getLastD root ∈ root :: xs := getLastD_mem_cons xs root
  have hprev_lt : (h.get root).prev < h.size := by
    rw [hlast]
    rcases List.mem_cons.mp hprev_mem with h1 | h1
    · rw [h1]; exact hroot_lt
    · exact hbound _ (List.mem_cons_of_mem _ h1)
  have hroot_ne : root ≠ h.size := Nat.ne_of_lt hroot_lt
  have hprev_ne : (h.get root).prev ≠ h.size := Nat.ne_of_lt hprev_lt
  set h1 := (h.alloc ⟨(h.get root).prev, root, some t⟩).1 with hh1
  have hg1root : h1.get root = h.get root := get_alloc_old _ _ _ hroot_lt
  have happ : (prepend h root t).1
      = setPrev (setNext h1 (h.get root).prev h.size) root h.size := by
    rw [← hg1root]; rfl
  have hsize' : (prepend h root t).1.size = h.size + 1 := by rw [happ]; rfl
  have G1 : (prepend h root t).1.get h.size
      = ⟨(h.get root).prev, root, some t⟩ := by
    rw [happ, get_setPrev_ne _ _ _ _ (Ne.symm hroot_ne),
      get_setNext_ne _ _ _ _ (Ne.symm hprev_ne), hh1, get_alloc_new]
  have G2 : ((prepend h root t).1.get root).prev = h.size := by
    rw [happ]
    apply prev_setPrev_self
    rw [size_setNext, hh1, alloc_size]
    exact Nat.lt_succ_of_lt hroot_lt
  have G4 : ∀ y, y ≠ (h.get root).prev → y < h.size →
      ((prepend h root t).1.get y).next = (h.get y).next := by
    intro y hy hylt
    rw [happ, next_setPrev, get_setNext_ne _ _ _ _ hy, hh1,
      get_alloc_old _ _ _ hylt]
  have G5 : ((prepend h root t).1.get (h.get root).prev).next = h.size := by
    rw [happ, next_setPrev]
    apply next_setNext_self
    rw [hh1, alloc_size]
    exact Nat.lt_succ_of_lt hprev_lt
  have G6 : ∀ y, y ≠ root → y < h.size →
      ((prepend h root t).1.get y).prev = (h.get y).prev := by
    intro y hy hylt
    rw [happ, get_setPrev_ne _ _ _ _ hy, prev_setNext, hh1,
      get_alloc_old _ _ _ hylt]
  have G7 : ∀ y, y < h.size →
      ((prepend h root t).1.get y).data = (h.get y).data := by
    intro y hylt
    rw [happ, data_setPrev, data_setNext, hh1, get_alloc_old _ _ _ hylt]
  refine ⟨⟨?_, ?_, ?_, ?_⟩, by rw [G1]⟩
  · rw [G7 root hroot_lt]; exact hdata
  · refine seg_append_cons.mpr ⟨?_, by rw [G1]; rfl, by rw [G1], G2⟩
    rcases List.eq_nil_or_concat xs with hnil | ⟨as0, a1, hcat⟩
    · subst hnil
      obtain ⟨hn0, hp0⟩ := hseg
      have hl0 : ([] : List Nat).getLastD root = root := rfl
      rw [hl0] at hlast
      refine ⟨?_, ?_⟩
      · have := G5
        rw [hlast] at this
        exact this
      · rw [G1, hlast]
    · rw [List.concat_eq_append] at hcat
      subst hcat
      have hl_eq : (as0 ++ [a1]).getLastD root = a1 := getLastD_snoc _ _ _
      rw [hl_eq] at hlast
      obtain ⟨hsegL0, hda1, hsegL1⟩ :=
        seg_append_cons.mp (hseg : seg h root (as0 ++ a1 :: []) root)
      have ha1_mem : a1 ∈ as0 ++ [a1] := by simp
      have hroot_nxs : root ∉ as0 ++ [a1] := (List.nodup_cons.mp hnodup).1
      have ha1_nr : a1 ≠ root := by
        intro hEq; exact hroot_nxs (by rw [← hEq]; exact ha1_mem)
      have ha1_nas0 : a1 ∉ as0 := by
        have := List.nodup_append.mp (List.nodup_cons.mp hnodup).2
        intro hc
        exact (this.2.2 hc) (by simp)
      have ha1_lt : a1 < h.size := hbound a1 (by simp)
      refine seg_append_cons.mpr ⟨?_, by rw [G7 a1 ha1_lt]; exact hda1, ?_⟩
      · rw [seg_congr (h := h)]
        · exact hsegL0
        · intro y hy
          apply G4
          · rw [hlast]
            intro hEq
            rcases List.mem_cons.mp hy with h1 | h1
            · exact ha1_nr (by rw [← hEq, h1])
            · exact ha1_nas0 (hEq ▸ h1)
          · rcases List.mem_cons.mp hy with h1 | h1
            · rw [h1]; exact hroot_lt
            · exact hbound y (by simp [h1])
        · intro y hy
          apply G6
          · intro hEq
            rcases List.mem_cons.mp hy with h1 | h1
            · exact ha1_nr (by rw [← h1, hEq])
            · exact hroot_nxs (by rw [← hEq]; simp [h1])
          · rcases List.mem_cons.mp hy with h1 | h1
            · rw [h1]; exact ha1_lt
            · exact hbound y (by simp [h1])
        · intro y hy
          apply G7
          exact hbound y (by simp [hy])
      · refine ⟨?_, ?_⟩
        · have := G5
          rw [hlast] at this
          exact this
        · rw [G1, hlast]
  · -- no duplicates with the fresh pointer
    obtain ⟨hr_nx, hxs_nd⟩ := List.nodup_cons.mp hnodup
    refine List.nodup_cons.mpr ⟨?_, ?_⟩
    · intro hmem
      rcases List.mem_append.mp hmem with h1 | h1
      · exact hr_nx h1
      · rcases List.mem_cons.mp h1 with h2 | h2
        · exact hroot_ne h2
        · simp at h2
    · rw [show xs ++ [h.size] = xs ++ h.size :: [] from rfl]
      rw [List.nodup_middle]
      refine List.nodup_cons.mpr ⟨?_, by simpa using hxs_nd⟩
      intro hmem
      rw [List.append_nil] at hmem
      exact Nat.lt_irrefl _ (hbound _ (by simp [hmem]))
  · intro y hy
    rw [hsize']
    rcases List.mem_cons.mp hy with h1 | h1
    · rw [h1]; exact Nat.lt_succ_of_lt hroot_lt
    · rcases List.mem_append.mp h1 with h2 | h2
      · exact Nat.lt_succ_of_lt (hbound y (by simp [h2]))
      · rcases List.mem_cons.mp h2 with h3 | h3
        · rw [h3]; exact Nat.lt_succ_self _
        · simp at h3

/-- The cursor of an iterator that has consumed the prefix `done` of a
well-formed list sits on the head of `todo` (or the sentinel when `todo` is
exhausted), and the forward chain ahead of it is `todo`. -/
theorem WF_fwd_suffix {h : Heap T} {root : Nat} {done todo : List Nat}
    (hwf : WF h root (done ++ todo)) :
    fwdOK h root (todo.headD root) todo := by
  obtain ⟨hdata, hseg, hnd, hbd⟩ := hwf
  cases todo with
  | nil => exact rfl
  | cons t ts =>
    obtain ⟨hsegL, hdt, hsegR⟩ := seg_append_cons.mp hseg
    exact ⟨rfl, hdt, seg_fwdOK hsegR⟩




/-! ### Claim C2 -/

/-- C2, counterexample: in the one-element list (`exH1`, element pointer 1,
payload 10), dropping the element's `LinkedNode` and then reading neighbours
through a retained `NodeRef` does **not** return `None`: both `prev()` and
`next()` return `Some` (the element itself), because the unlink points the
element's own pointers at itself and its payload is still present. -/
theorem noderef_after_unlink_cex :
    (exH1.get 1).data = some 10
      ∧ nodePrev (dropNode exH1 1) 1 ≠ none
      ∧ nodeNext (dropNode exH1 1) 1 ≠ none := by decide

/-- C2 (amended): for every heap and every element that carries a payload,
after the element is unlinked (`Drop for LinkedNode`), `NodeRef::prev()` and
`NodeRef::next()` on it both return `Some` of the element itself — the unlink
sets the element's `prev`/`next` to itself and never clears the payload, and
`peer` only returns `None` when the neighbour is the payload-free sentinel. -/
theorem noderef_after_unlink_self {h : Heap T} {p : Nat}
    (hdata : (h.get p).data.isSome) :
    nodePrev (dropNode h p) p = some p ∧ nodeNext (dropNode h p) p = some p := by
  have hp_lt : p < h.size := by
    by_contra hge
    have hget : h.get p = ⟨0, 0, none⟩ := by
      unfold Heap.get
      simp [hge]
    rw [hget] at hdata
    simp at hdata
  obtain ⟨hprev, hnext⟩ := self_dropNode h p hp_lt
  have hd : ((dropNode h p).get p).data = (h.get p).data := data_dropNode h p p
  constructor
  · simp only [nodePrev]
    rw [hprev, hd]
    simp [hdata]
  · simp only [nodeNext]
    rw [hnext, hd]
    simp [hdata]

/-- Witness for the C2 amended theorem at the concrete one-element list. -/
theorem noderef_after_unlink_self_witness :
    (exH1.get 1).data.isSome = true
      ∧ (nodePrev (dropNode exH1 1) 1 = some 1
        ∧ nodeNext (dropNode exH1 1) 1 = some 1) :=
  ⟨by decide, noderef_after_unlink_self (by decide)⟩

/-! ### Claim C3 -/

/-- C3, counterexample: on the two-element list `exH2` (elements 1, 2), an
iteration is started and yields element 1, leaving the cursor on element 2;
then element 2's `LinkedNode` is dropped (unlinking it mid-iteration). The
continued iteration yields the unlinked element 2 on every subsequent call
(here three times under fuel 3): it yields an element twice and never
terminates, refuting the claim. -/
theorem iter_unlink_at_cursor_cex :
    iterNext exH2 (iterNew exH2 0) = some (1, ⟨0, 2⟩)
      ∧ iterRun (dropNode exH2 2) ⟨0, 2⟩ 3 = [2, 2, 2] := by decide

/-- C3 (amended): if a forward iteration over a well-formed list has consumed
the prefix `done` (cursor on the head of `todo`, or the sentinel when `todo`
is exhausted) and an element `u` other than the cursor target is unlinked,
the continued iteration terminates and yields exactly the remaining linked
elements, each once. Unlinking the cursor target itself instead wedges the
iterator on that element (see the counterexample). -/
theorem iter_unlink_noncursor_sound {h : Heap T} {root u fuel : Nat}
    {done todo : List Nat} (hwf : WF h root (done ++ todo))
    (hu : u ∈ done ++ todo) (hcur : u ≠ todo.headD root)
    (hfuel : (todo.erase u).length < fuel) :
    iterRun (dropNode h u) ⟨root, todo.headD root⟩ fuel = todo.erase u := by
  have hwf' := WF_dropNode hwf hu
  have hroot : ((dropNode h u).get root).data = none := by
    rw [data_dropNode]; exact hwf.1
  have hnodup : (root :: (done ++ todo)).Nodup := hwf.2.2.1
  by_cases hmem : u ∈ done
  · -- u lies in the consumed prefix: the remaining chain is untouched
    have hdt : (done ++ todo).Nodup := (List.nodup_cons.mp hnodup).2
    have hu_todo : u ∉ todo := by
      intro hc
      exact (List.nodup_append.mp hdt).2.2 hmem hc
    have he1 : (done ++ todo).erase u = done.erase u ++ todo :=
      List.erase_append_left _ hmem
    have he2 : todo.erase u = todo := List.erase_of_not_mem hu_todo
    rw [he1] at hwf'
    rw [he2] at hfuel ⊢
    exact iterRun_fwdOK hroot (WF_fwd_suffix hwf') hfuel
  · -- u lies strictly beyond the cursor: it is spliced out of the chain
    have hu_todo : u ∈ todo := by
      rcases List.mem_append.mp hu with h1 | h1
      · exact absurd h1 hmem
      · exact h1
    have he1 : (done ++ todo).erase u = done ++ todo.erase u :=
      List.erase_append_right _ hmem
    rw [he1] at hwf'
    cases todo with
    | nil => simp at hu_todo
    | cons tt ts =>
      have hcur' : u ≠ tt := hcur
      have he3 : (tt :: ts).erase u = tt :: ts.erase u :=
        List.erase_cons_tail (by simp [Ne.symm hcur'])
      rw [he3] at hwf' hfuel ⊢
      exact iterRun_fwdOK hroot (WF_fwd_suffix hwf') hfuel

/-- Witness for the C3 amended theorem: on `exH2`, after yielding element 1
(cursor on 2), unlink element 1; the continued iteration yields `[2]`. -/
theorem iter_unlink_noncursor_sound_witness :
    WF exH2 0 ([1] ++ [2])
      ∧ iterRun (dropNode exH2 1) ⟨0, ([2] : List Nat).headD 0⟩ 2
          = ([2] : List Nat).erase 1 :=
  ⟨by decide,
    @iter_unlink_noncursor_sound Nat exH2 0 1 2 [1] [2]
      (by decide) (by decide) (by decide) (by decide)⟩

/-! ### Claim C9 -/

/-- C9: on any well-formed list, `add_first t` inserts the fresh element at
the front — `first()` returns it and a fresh forward iteration yields it
first, carrying `t` — and `add_last t` inserts at the back — `last()` returns
it and a fresh forward iteration yields it last; moreover forward and reverse
iteration of the unchanged list yield the same elements in opposite orders. -/
theorem add_first_last_iter_spec {h : Heap T} {root : Nat}
    {xs : List Nat} (t : T) {fuel : Nat} (hwf : WF h root xs)
    (hfuel : xs.length + 1 < fuel) :
    (((add_first h root t).1.get (add_first h root t).2).data = some t
      ∧ firstNode (add_first h root t).1 root = some (add_first h root t).2
      ∧ iterRun (add_first h root t).1 (iterNew (add_first h root t).1 root) fuel
          = (add_first h root t).2 :: xs)
    ∧ (((add_last h root t).1.get (add_last h root t).2).data = some t
      ∧ lastNode (add_last h root t).1 root = some (add_last h root t).2
      ∧ iterRun (add_last h root t).1 (iterNew (add_last h root t).1 root) fuel
          = xs ++ [(add_last h root t).2])
    ∧ revIterRun h (revIterNew h root) fuel
        = (iterRun h (iterNew h root) fuel).reverse := by
  have hroot_lt : root < h.size := hwf.2.2.2 root (by simp)
  have hne : h.size ≠ root := fun hEq => Nat.lt_irrefl _ (hEq ▸ hroot_lt)
  simp only [add_first, add_last]
  have happ2 : (append h root t).2 = h.size := rfl
  have hpre2 : (prepend h root t).2 = h.size := rfl
  rw [happ2, hpre2]
  refine ⟨?_, ?_, ?_⟩
  · obtain ⟨hwf1, hdata1⟩ := WF_add_first t hwf
    obtain ⟨hd1, hseg1, hnd1, hbd1⟩ := hwf1
    refine ⟨hdata1, ?_, ?_⟩
    · unfold firstNode endpoint
      rw [hseg1.1]
      simp [hne]
    · have hf : fwdOK (append h root t).1 root
          (((append h root t).1.get root).next) (h.size :: xs) :=
        seg_fwdOK hseg1
      exact iterRun_fwdOK hd1 hf (by simpa using hfuel)
  · obtain ⟨hwf2, hdata2⟩ := WF_add_last t hwf
    obtain ⟨hd2, hseg2, hnd2, hbd2⟩ := hwf2
    have hlast2 : ((prepend h root t).1.get root).prev = h.size := by
      rw [seg_last_prev hseg2, getLastD_snoc]
    refine ⟨hdata2, ?_, ?_⟩
    · unfold lastNode endpoint
      rw [hlast2]
      simp [hne]
    · have hf : fwdOK (prepend h root t).1 root
          (((prepend h root t).1.get root).next) (xs ++ [h.size]) :=
        seg_fwdOK hseg2
      exact iterRun_fwdOK hd2 hf (by simpa using hfuel)
  · obtain ⟨hd, hseg, hnd, hbd⟩ := hwf
    have hfwd : iterRun h (iterNew h root) fuel = xs :=
      iterRun_fwdOK hd (seg_fwdOK hseg) (by omega)
    rw [hfwd]
    have hm : xs.length + (fuel - xs.length) = fuel := by omega
    have hrev := revIterRun_seg (m := fuel - xs.length) hd hseg
    rw [hm, revIterRun_root] at hrev
    unfold revIterNew
    rw [seg_last_prev hseg, hrev]
    simp

/-! ### Claims C4–C7: connector lifecycle -/

/-- Every action of the connect-time drain loop is a move onto the new
output with `source_is_destroyed = false`, stemming from a queued
workspace. -/
theorem moveQueue_src {outputId onId : Nat} {q : List Workspace} {a : Action}
    (h : a ∈ moveQueue outputId onId q) :
    ∃ ws ∈ q, ∃ b, a = Action.moveWs ws.wid onId b false := by
  induction q with
  | nil => simp [moveQueue] at h
  | cons w rest ih =>
    simp only [moveQueue, List.mem_cons] at h
    rcases h with h | h
    · exact ⟨w, by simp, _, h⟩
    · obtain ⟨ws, hmem, b, hb⟩ := ih h
      exact ⟨ws, by simp [hmem], b, hb⟩

/-- Every queued workspace is moved onto the new output by the drain loop. -/
theorem moveQueue_mem {outputId onId : Nat} {q : List Workspace}
    {ws : Workspace} (h : ws ∈ q) :
    ∃ b, Action.moveWs ws.wid onId b false ∈ moveQueue outputId onId q := by
  induction q with
  | nil => simp at h
  | cons w rest ih =>
    rcases List.mem_cons.mp h with h1 | h1
    · subst h1
      refine ⟨(ws.visible_on_desired_output && ws.desired_output == outputId)
        || rest.isEmpty, ?_⟩
      simp [moveQueue]
    · obtain ⟨b, hb⟩ := ih h1
      exact ⟨b, by simp [moveQueue, hb]⟩

/-- C4, counterexample: two workspaces, both with `visible_on_desired_output`
set and desiring the new output (`OutputId` 7). The drain loop moves **both**
with the make-visible flag set (the condition is evaluated per workspace, and
the last queue element receives the flag besides), not "exactly the first". -/
theorem make_visible_first_only_cex :
    (Workspace.mk 1 false 7 true false).visible_on_desired_output = true
      ∧ (Workspace.mk 2 false 7 true false).visible_on_desired_output = true
      ∧ moveQueue 7 5 [⟨1, false, 7, true, false⟩, ⟨2, false, 7, true, false⟩]
          = [.moveWs 1 5 true false, .moveWs 2 5 true false] := by decide

/-- C4 (amended): a workspace at queue position `i` is moved with the
make-visible flag set iff (its `visible_on_desired_output` is set **and**
its `desired_output` equals the new output's id) **or** it is the last
element of the queue; every flagged workspace gets the flag, not only the
first. -/
theorem moveQueue_flag_spec (outputId onId : Nat) (q : List Workspace) :
    ∀ (i : Nat) (ws : Workspace), q[i]? = some ws →
      (moveQueue outputId onId q)[i]?
        = some (.moveWs ws.wid onId
            ((ws.visible_on_desired_output && ws.desired_output == outputId)
              || (i + 1 == q.length)) false) := by
  induction q with
  | nil => intro i ws h; simp at h
  | cons w rest ih =>
    intro i ws h
    cases i with
    | zero =>
      rw [List.getElem?_cons_zero] at h
      obtain rfl : w = ws := by injection h
      cases rest with
      | nil => rfl
      | cons r rs => rfl
    | succ i =>
      rw [List.getElem?_cons_succ] at h
      have := ih i ws h
      simp only [moveQueue, List.getElem?_cons_succ]
      rw [this]
      have hlen : ((i + 1 + 1 == (w :: rest).length) : Bool)
          = (i + 1 == rest.length) := by
        simp [List.length_cons]
      rw [hlen]

/-- Witness for the C4 amended theorem: in the two-element queue of the
counterexample, the second (last) workspace is also moved with the flag. -/
theorem moveQueue_flag_spec_witness :
    ([⟨1, false, 7, true, false⟩,
        (⟨2, false, 7, true, false⟩ : Workspace)][1]? = some ⟨2, false, 7, true, false⟩)
      ∧ (moveQueue 7 5 [⟨1, false, 7, true, false⟩, ⟨2, false, 7, true, false⟩])[1]?
          = some (.moveWs 2 5 true false) := by
  refine ⟨by decide, ?_⟩
  have := moveQueue_flag_spec 7 5
    [⟨1, false, 7, true, false⟩, ⟨2, false, 7, true, false⟩]
    1 ⟨2, false, 7, true, false⟩ (by decide)
  rw [this]
  rfl

/-- C5: on a desktop output's disconnect, every hosted workspace whose
`desired_output` is the vanishing output's id has
`visible_on_desired_output` persisted to its current visibility (others
untouched); every hosted workspace is migrated, with
`source_is_destroyed = true`, to the disconnect target — a remaining output
if one exists, otherwise the dummy output; and every seat whose current
output is the vanishing output is repositioned to the center of the target's
rectangle. -/
theorem disconnect_spec (onWss : List Workspace) (remaining : List OutputSt)
    (dummyOut : OutputSt) (seats : List Seat) (onId outputId : Nat) :
    ((disconnectActions onWss remaining dummyOut seats onId outputId).1
        = onWss.map (fun ws =>
            if ws.desired_output == outputId
            then { ws with visible_on_desired_output := ws.visible } else ws))
    ∧ (∀ ws ∈ onWss,
        Action.moveWs ws.wid (disconnectTarget remaining dummyOut).oid
            ws.visible true
          ∈ (disconnectActions onWss remaining dummyOut seats onId outputId).2)
    ∧ (∀ a ∈ (disconnectActions onWss remaining dummyOut seats onId outputId).2,
        ∀ w o mv sd, a = Action.moveWs w o mv sd →
          o = (disconnectTarget remaining dummyOut).oid ∧ sd = true)
    ∧ ((remaining ≠ [] →
          (disconnectTarget remaining dummyOut).oid ∈ remaining.map OutputSt.oid)
      ∧ (remaining = [] →
          (disconnectTarget remaining dummyOut).oid = dummyOut.oid))
    ∧ (∀ s ∈ seats, s.output_node = onId →
        Action.setSeatPos s.sid
            (centerX (disconnectTarget remaining dummyOut).pos)
            (centerY (disconnectTarget remaining dummyOut).pos)
          ∈ (disconnectActions onWss remaining dummyOut seats onId outputId).2) := by
  refine ⟨?_, ?_, ?_, ⟨?_, ?_⟩, ?_⟩
  · simp only [disconnectActions, List.map_map]
    rfl
  · intro ws hws
    simp only [disconnectActions, List.map_map]
    apply List.mem_append_left
    exact List.mem_map.mpr ⟨ws, hws, rfl⟩
  · intro a ha w o mv sd hEq
    simp only [disconnectActions, List.map_map] at ha
    rcases List.mem_append.mp ha with h1 | h1
    · obtain ⟨ws, _, hws⟩ := List.mem_map.mp h1
      rw [hEq] at hws
      injection hws with e1 e2 e3 e4
      exact ⟨e2.symm, e4.symm⟩
    · obtain ⟨s, _, hs⟩ := List.mem_map.mp h1
      rw [hEq] at hs
      exact absurd hs.symm (by simp)
  · intro hne
    cases remaining with
    | nil => exact absurd rfl hne
    | cons o rest => simp [disconnectTarget]
  · intro hEq
    subst hEq
    rfl
  · intro s hs hout
    simp only [disconnectActions, List.map_map]
    apply List.mem_append_right
    apply List.mem_map.mpr
    refine ⟨s, ?_, rfl⟩
    apply List.mem_filter.mpr
    exact ⟨hs, by simp [hout]⟩

/-- Witness for C5: one hosted workspace desiring the vanishing output
(`OutputId` 7), one remaining output (node id 5), one seat on the vanishing
output (node id 4). -/
theorem disconnect_spec_witness :
    ((disconnectActions [⟨1, false, 7, true, false⟩] [⟨5, ⟨0, 0, 100, 50⟩, []⟩]
        ⟨9, ⟨0, 0, 1, 1⟩, []⟩ [⟨3, 4⟩] 4 7).1
      = [{ (⟨1, false, 7, true, false⟩ : Workspace) with
            visible_on_desired_output := false }])
    ∧ Action.moveWs 1 5 false true
        ∈ (disconnectActions [⟨1, false, 7, true, false⟩] [⟨5, ⟨0, 0, 100, 50⟩, []⟩]
            ⟨9, ⟨0, 0, 1, 1⟩, []⟩ [⟨3, 4⟩] 4 7).2
    ∧ Action.setSeatPos 3 (centerX ⟨0, 0, 100, 50⟩) (centerY ⟨0, 0, 100, 50⟩)
        ∈ (disconnectActions [⟨1, false, 7, true, false⟩] [⟨5, ⟨0, 0, 100, 50⟩, []⟩]
            ⟨9, ⟨0, 0, 1, 1⟩, []⟩ [⟨3, 4⟩] 4 7).2 := by
  have hs := disconnect_spec [⟨1, false, 7, true, false⟩] [⟨5, ⟨0, 0, 100, 50⟩, []⟩]
    ⟨9, ⟨0, 0, 1, 1⟩, []⟩ [⟨3, 4⟩] 4 7
  refine ⟨?_, ?_, ?_⟩
  · rw [hs.1]; rfl
  · exact hs.2.1 ⟨1, false, 7, true, false⟩ (by simp)
  · exact hs.2.2.2.2 ⟨3, 4⟩ (by simp) rfl

/-- C6: when the connected desktop output is the only output in the display
root, every seat is repositioned to its center `((x1+x2)/2, (y1+y2)/2)` and
every non-dummy workspace of the dummy output is migrated onto it; when it
is not the first output, no seat is repositioned and no workspace of the
dummy output (none of whose ids occur on existing outputs) is migrated. -/
theorem first_output_spec (existing : List OutputSt)
    (dummyWss : List Workspace) (seats : List Seat) (onId : Nat)
    (onPos : Rect) (outputId : Nat) :
    (existing = [] →
      (∀ s ∈ seats,
        Action.setSeatPos s.sid (centerX onPos) (centerY onPos)
          ∈ connectActions existing dummyWss seats onId onPos outputId)
      ∧ (∀ ws ∈ dummyWss, ws.is_dummy = false →
          ∃ b, Action.moveWs ws.wid onId b false
            ∈ connectActions existing dummyWss seats onId onPos outputId))
    ∧ (existing ≠ [] →
      (∀ sid x y, Action.setSeatPos sid x y
          ∉ connectActions existing dummyWss seats onId onPos outputId)
      ∧ (∀ ws ∈ dummyWss,
          (∀ o ∈ existing, ∀ ws2 ∈ o.workspaces, ws2.wid ≠ ws.wid) →
          ∀ b, Action.moveWs ws.wid onId b false
            ∉ connectActions existing dummyWss seats onId onPos outputId)) := by
  constructor
  · intro hEq
    subst hEq
    constructor
    · intro s hs
      simp only [connectActions]
      apply List.mem_append_left
      exact List.mem_map.mpr ⟨s, hs, rfl⟩
    · intro ws hws hnd
      have hmem : ws ∈ dummyWss.filter (fun w => !w.is_dummy) :=
        List.mem_filter.mpr ⟨hws, by simp [hnd]⟩
      simp only [connectActions]
      have hq : ws ∈ (dummyWss.filter (fun w => !w.is_dummy))
          ++ (([] ++ [(⟨onId, onPos, []⟩ : OutputSt)]).filter
              (fun (o : OutputSt) => o.oid != onId)).flatMap
            (fun (source : OutputSt) =>
              source.workspaces.filter (fun w =>
                !w.is_dummy && w.desired_output == outputId)) :=
        List.mem_append_left _ hmem
      obtain ⟨b, hb⟩ := @moveQueue_mem outputId onId _ _ hq
      exact ⟨b, List.mem_append_right _ hb⟩
  · intro hne
    have hfirst : (existing.length + 1 == 1) = false := by
      cases existing with
      | nil => exact absurd rfl hne
      | cons e es => rfl
    constructor
    · intro sid x y hmem
      simp only [connectActions, hfirst, if_false, List.nil_append] at hmem
      obtain ⟨ws, _, b, hb⟩ := moveQueue_src hmem
      exact absurd hb (by simp)
    · intro ws hws hdisj b hmem
      simp only [connectActions, hfirst, if_false, List.nil_append] at hmem
      obtain ⟨ws2, hws2, b2, hb2⟩ := moveQueue_src hmem
      have hwid : ws2.wid = ws.wid := by injection hb2.symm
      obtain ⟨o, ho, hws2o⟩ := List.mem_flatMap.mp hws2
      have ho2 := List.mem_of_mem_filter ho
      rcases List.mem_append.mp ho2 with h1 | h1
      · have hin : ws2 ∈ o.workspaces := List.mem_of_mem_filter hws2o
        exact hdisj o h1 ws2 hin hwid
      · have : o = (⟨onId, onPos, []⟩ : OutputSt) := by
          rcases List.mem_cons.mp h1 with h2 | h2
          · exact h2
          · simp at h2
        rw [this] at hws2o
        simp at hws2o

/-- Witness for C6, both branches: a first output (no existing outputs, one
dummy workspace, one seat) gets the seat centered and the workspace moved;
with an existing output the trace contains no seat action and no move of the
dummy's workspace. -/
theorem first_output_spec_witness :
    (Action.setSeatPos 3 (centerX ⟨0, 0, 100, 50⟩) (centerY ⟨0, 0, 100, 50⟩)
        ∈ connectActions [] [⟨1, false, 7, true, false⟩] [⟨3, 4⟩] 5
            ⟨0, 0, 100, 50⟩ 7
      ∧ ∃ b, Action.moveWs 1 5 b false
          ∈ connectActions [] [⟨1, false, 7, true, false⟩] [⟨3, 4⟩] 5
              ⟨0, 0, 100, 50⟩ 7)
    ∧ ((∀ sid x y, Action.setSeatPos sid x y
          ∉ connectActions [⟨8, ⟨0, 0, 10, 10⟩, []⟩] [⟨1, false, 7, true, false⟩]
              [⟨3, 4⟩] 5 ⟨0, 0, 100, 50⟩ 7)
      ∧ ∀ b, Action.moveWs 1 5 b false
          ∉ connectActions [⟨8, ⟨0, 0, 10, 10⟩, []⟩] [⟨1, false, 7, true, false⟩]
              [⟨3, 4⟩] 5 ⟨0, 0, 100, 50⟩ 7) := by
  have h1 := (first_output_spec [] [⟨1, false, 7, true, false⟩] [⟨3, 4⟩] 5
    ⟨0, 0, 100, 50⟩ 7).1 rfl
  have h2 := (first_output_spec [⟨8, ⟨0, 0, 10, 10⟩, []⟩]
    [⟨1, false, 7, true, false⟩] [⟨3, 4⟩] 5 ⟨0, 0, 100, 50⟩ 7).2 (by simp)
  refine ⟨⟨h1.1 ⟨3, 4⟩ (by simp), h1.2 ⟨1, false, 7, true, false⟩ (by simp) rfl⟩,
    ⟨h2.1, ?_⟩⟩
  intro b
  exact h2.2 ⟨1, false, 7, true, false⟩ (by simp) (by simp) b

/-- C7, counterexample: in the connected **desktop** drain loop, `Available`
(and `Unavailable`) hits `unreachable!` — the process aborts — rather than
being ignored with the loop continuing. -/
theorem desktop_available_aborts_cex :
    desktopConnectedStep .available = .abort
      ∧ desktopConnectedStep .unavailable = .abort
      ∧ desktopConnectedStep .available ≠ .keepDraining := by decide

/-- C7 (amended): the connected desktop loop consumes only `Disconnected`
(exit), `HardwareCursor` and `ModeChanged` (continue) and aborts via
`unreachable!` on everything else — in particular on `Available` and
`Unavailable`; only the connected non-desktop loop ignores `Available` and
`Unavailable` and keeps draining. -/
theorem connected_loop_event_handling :
    (∀ ev, desktopConnectedStep ev = .keepDraining
      ↔ (ev = .hardwareCursor ∨ ev = .modeChanged))
    ∧ (∀ ev, desktopConnectedStep ev = .exitLoop ↔ ev = .disconnected)
    ∧ (∀ ev, nonDesktopConnectedStep ev = .keepDraining
      ↔ (ev = .available ∨ ev = .unavailable))
    ∧ (∀ ev, nonDesktopConnectedStep ev = .exitLoop ↔ ev = .disconnected) := by
  refine ⟨fun ev => ?_, fun ev => ?_, fun ev => ?_, fun ev => ?_⟩ <;>
    cases ev <;> simp [desktopConnectedStep, nonDesktopConnectedStep]

/-! ### Claim C1 -/

/-- Filtering out a key makes its lookup fail. -/
theorem lookup_filter_self (es : List (Nat × IfaceTag)) (objId : Nat) :
    (es.filter (fun e => e.1 != objId)).lookup objId = none := by
  induction es with
  | nil => rfl
  | cons e es ih =>
    obtain ⟨k, v⟩ := e
    rw [List.filter_cons]
    by_cases hEq : k = objId
    · rw [if_neg (by simp [hEq])]
      exact ih
    · rw [if_pos (by simp [hEq]), List.lookup_cons]
      have hb : (objId == k) = false := by simp [Ne.symm hEq]
      rw [hb]
      exact ih

/-- Filtering out a key leaves every other key's binding unchanged. -/
theorem lookup_filter_other (es : List (Nat × IfaceTag)) (objId i : Nat)
    (hne : i ≠ objId) :
    (es.filter (fun e => e.1 != objId)).lookup i = es.lookup i := by
  induction es with
  | nil => rfl
  | cons e es ih =>
    obtain ⟨k, v⟩ := e
    rw [List.filter_cons]
    by_cases hEq : k = objId
    · rw [if_neg (by simp [hEq]), List.lookup_cons]
      have hb : (i == k) = false := by rw [hEq]; simp [hne]
      rw [hb]
      exact ih
    · rw [if_pos (by simp [hEq]), List.lookup_cons, List.lookup_cons]
      by_cases hik : i = k
      · have hb : (i == k) = true := by simp [hik]
        rw [hb]
      · have hb : (i == k) = false := by simp [hik]
        rw [hb]
        exact ih

/-- After `remove_obj`, the id no longer resolves. -/
theorem lookup_remove_self (c : Client) (objId : Nat) :
    (c.remove_obj objId).objects.lookup objId = none :=
  lookup_filter_self c.objects objId

/-- `remove_obj` leaves every other id's binding unchanged. -/
theorem lookup_remove_other (c : Client) (objId i : Nat) (hne : i ≠ objId) :
    (c.remove_obj objId).objects.lookup i = c.objects.lookup i :=
  lookup_filter_other c.objects objId i hne

/-- C1: `xdg_wm_base.destroy` succeeds exactly when the `surfaces` table is
empty. Empty: the object is removed from the client table (its id no longer
resolves, all other ids unchanged), no protocol error is raised and no
shutdown is scheduled. Non-empty: the handler returns `DefunctSurfaces`, the
object table is untouched, and (with no prior latched error) protocol error
code 1 (`defunct_surfaces`) is latched on this object with shutdown
scheduled. Moreover a surface successfully created via `get_xdg_surface`
makes the table non-empty, so a subsequent `destroy` takes the error path. -/
theorem xdg_wm_base_destroy_spec (wm : XdgWmBase) (c : Client) :
    (wm.surfaces = [] →
      (wm.destroy c).1 = .ok ()
        ∧ ((wm.destroy c).2).objects.lookup wm.id = none
        ∧ (∀ i, i ≠ wm.id →
            ((wm.destroy c).2).objects.lookup i = c.objects.lookup i)
        ∧ ((wm.destroy c).2).protoError = c.protoError
        ∧ ((wm.destroy c).2).shutdown = c.shutdown)
    ∧ (wm.surfaces ≠ [] →
      (wm.destroy c).1 = .error .defunctSurfaces
        ∧ ((wm.destroy c).2).objects = c.objects
        ∧ (c.protoError = none →
            ((wm.destroy c).2).protoError = some (wm.id, DEFUNCT_SURFACES)
              ∧ ((wm.destroy c).2).shutdown = true))
    ∧ (∀ reqId surfaceId installOk wm' c',
        wm.get_xdg_surface c reqId surfaceId installOk = .ok (wm', c') →
          wm'.surfaces ≠ []
            ∧ (wm'.destroy c').1 = .error .defunctSurfaces) := by
  refine ⟨?_, ?_, ?_⟩
  · intro hempty
    have hdes : wm.destroy c = (.ok (), c.remove_obj wm.id) := by
      unfold XdgWmBase.destroy
      rw [hempty]
      rfl
    rw [hdes]
    exact ⟨rfl, lookup_remove_self c wm.id,
      fun i hi => lookup_remove_other c wm.id i hi, rfl, rfl⟩
  · intro hne
    unfold XdgWmBase.destroy
    rw [if_pos (by simp [List.isEmpty_iff, hne])]
    refine ⟨rfl, ?_, ?_⟩
    · unfold Client.protocol_error
      cases c.protoError <;> rfl
    · intro hlatch
      unfold Client.protocol_error
      rw [hlatch]
      exact ⟨rfl, rfl⟩
  · intro reqId surfaceId installOk wm' c' hok
    unfold XdgWmBase.get_xdg_surface at hok
    rcases hl : c.lookup surfaceId .wlSurface with e | s
    · rw [hl] at hok; exact absurd hok (by simp)
    · rw [hl] at hok
      rcases ha : c.add_client_obj reqId .xdgSurface with e | c2
      · rw [ha] at hok; exact absurd hok (by simp)
      · rw [ha] at hok
        cases installOk with
        | false => exact absurd hok (by simp)
        | true =>
          simp only [if_pos] at hok
          have hwm : wm' = { wm with surfaces := copyMapSet wm.surfaces reqId } := by
            cases hok; rfl
          have hsurf : wm'.surfaces ≠ [] := by
            rw [hwm]
            simp [copyMapSet]
          refine ⟨hsurf, ?_⟩
          unfold XdgWmBase.destroy
          rw [if_pos (by simp [List.isEmpty_iff, hsurf])]

/-- Witness for C1: destroying a freshly bound `xdg_wm_base` (id 10, empty
table) succeeds and unbinds id 10; destroying one holding surface 11 fails
with `DefunctSurfaces` and latches protocol error code 1. -/
theorem xdg_wm_base_destroy_spec_witness :
    ((XdgWmBase.destroy ⟨10, 3, []⟩ ⟨[(10, .xdgWmBase)], none, false⟩).1 = .ok ()
      ∧ ((XdgWmBase.destroy ⟨10, 3, []⟩
          ⟨[(10, .xdgWmBase)], none, false⟩).2).objects.lookup 10 = none)
    ∧ ((XdgWmBase.destroy ⟨10, 3, [11]⟩
          ⟨[(10, .xdgWmBase), (11, .xdgSurface)], none, false⟩).1
        = .error .defunctSurfaces
      ∧ ((XdgWmBase.destroy ⟨10, 3, [11]⟩
          ⟨[(10, .xdgWmBase), (11, .xdgSurface)], none, false⟩).2).protoError
        = some (10, DEFUNCT_SURFACES)) :=
  ⟨⟨((xdg_wm_base_destroy_spec ⟨10, 3, []⟩
        ⟨[(10, .xdgWmBase)], none, false⟩).1 rfl).1,
    ((xdg_wm_base_destroy_spec ⟨10, 3, []⟩
        ⟨[(10, .xdgWmBase)], none, false⟩).1 rfl).2.1⟩,
   ⟨((xdg_wm_base_destroy_spec ⟨10, 3, [11]⟩
        ⟨[(10, .xdgWmBase), (11, .xdgSurface)], none, false⟩).2.1
        (by decide)).1,
    (((xdg_wm_base_destroy_spec ⟨10, 3, [11]⟩
        ⟨[(10, .xdgWmBase), (11, .xdgSurface)], none, false⟩).2.1
        (by decide)).2.2 rfl).1⟩⟩

/-! ### Claim C8 -/

/-- C8: `WorkspaceNode::set_visible(v)` makes `visible()` return `v`, sets
the container child's visibility (if any) to `v`, and reports `v` to the
seat state; and `set_container` attaches the container with its visibility
equal to the workspace's current visibility. -/
theorem workspace_set_visible_spec (w : WorkspaceNode) (v : Bool)
    (c : ContainerNode) :
    (w.set_visible v).visible = v
      ∧ (w.set_visible v).container
          = w.container.map (fun cc => { cc with visible := v })
      ∧ (w.set_visible v).seat_state = ⟨some v⟩
      ∧ ((w.set_container c).container.map ContainerNode.visible)
          = some w.visible
      ∧ (w.set_container c).visible = w.visible := by
  refine ⟨rfl, rfl, rfl, ?_, rfl⟩
  unfold WorkspaceNode.set_container
  rfl

/-! ### Claim C10 -/

/-- C10: `set_selection` with the null source id never touches the object
table — for every client state it returns `Ok None` (in particular it cannot
fail with `UnknownObject` or `InterfaceMismatch`); with a non-null id the
source is looked up, a lookup failure propagates as the handler's error, and
success passes the source as `Some`. -/
theorem set_selection_null_source_spec :
    (∀ c : Client, set_selection c 0 = .ok none)
    ∧ (∀ (c : Client) (source : Nat), source ≠ 0 →
        (∀ e, c.lookup source .zwpPrimarySelectionSourceV1 = .error e →
          set_selection c source = .error e)
        ∧ (∀ s, c.lookup source .zwpPrimarySelectionSourceV1 = .ok s →
          set_selection c source = .ok (some s))) := by
  refine ⟨fun c => rfl, fun c source hs => ⟨?_, ?_⟩⟩
  · intro e he
    unfold set_selection
    rw [if_neg hs, he]
  · intro s hsk
    unfold set_selection
    rw [if_neg hs, hsk]

/-- Witness for C10: the null id succeeds on a client whose table does not
even bind id 0; a non-null unbound id fails with `UnknownObject`; a bound
source id is passed as `Some`. -/
theorem set_selection_null_source_spec_witness :
    set_selection ⟨[(5, .zwpPrimarySelectionSourceV1)], none, false⟩ 0 = .ok none
      ∧ set_selection ⟨[(5, .zwpPrimarySelectionSourceV1)], none, false⟩ 9
          = .error .unknownObject
      ∧ set_selection ⟨[(5, .zwpPrimarySelectionSourceV1)], none, false⟩ 5
          = .ok (some 5) :=
  ⟨set_selection_null_source_spec.1 ⟨[(5, .zwpPrimarySelectionSourceV1)], none, false⟩,
   (set_selection_null_source_spec.2
      ⟨[(5, .zwpPrimarySelectionSourceV1)], none, false⟩ 9 (by decide)).1
      .unknownObject rfl,
   (set_selection_null_source_spec.2
      ⟨[(5, .zwpPrimarySelectionSourceV1)], none, false⟩ 5 (by decide)).2
      5 rfl⟩

/-- Witness for C9 at the concrete two-element list `exH2`. -/
theorem add_first_last_iter_spec_witness :
    WF exH2 0 [1, 2]
      ∧ ((((add_first exH2 0 30).1.get (add_first exH2 0 30).2).data = some 30
          ∧ firstNode (add_first exH2 0 30).1 0 = some (add_first exH2 0 30).2
          ∧ iterRun (add_first exH2 0 30).1 (iterNew (add_first exH2 0 30).1 0) 4
              = (add_first exH2 0 30).2 :: [1, 2])
        ∧ (((add_last exH2 0 30).1.get (add_last exH2 0 30).2).data = some 30
          ∧ lastNode (add_last exH2 0 30).1 0 = some (add_last exH2 0 30).2
          ∧ iterRun (add_last exH2 0 30).1 (iterNew (add_last exH2 0 30).1 0) 4
              = [1, 2] ++ [(add_last exH2 0 30).2])
        ∧ revIterRun exH2 (revIterNew exH2 0) 4
            = (iterRun exH2 (iterNew exH2 0) 4).reverse) :=
  ⟨by decide, add_first_last_iter_spec 30 (by decide) (by decide)⟩

end Jay
